import Mathlib

/-!
Verification development for the Time-Surfer proxy (main.go).

Strings from the Go source are modelled as lists of characters; for the
ASCII inputs exercised here a character corresponds to one byte, so Go
byte indices coincide with list indices.  Functions that can hit a Go
runtime fault (slice bounds out of range, nil dereference) return an
Option or a dedicated fault constructor, with none / fault standing for
the fault.
-/

/-- Characters of a string literal. -/
def chrs (s : String) : List Char := s.data

/-- Index of the first occurrence of pat in s, as in the Go function
strings.Index (none stands for the Go result -1). -/
def firstIdx (pat : List Char) : List Char → Option Nat
  | [] => if pat = [] then some 0 else none
  | c :: rest =>
    if pat.isPrefixOf (c :: rest) then some 0
    else (firstIdx pat rest).map (· + 1)

/-- Go strings.Contains s pat. -/
def containsL (s pat : List Char) : Bool := (firstIdx pat s).isSome

/-- Go slice expression s[i:]; none models the runtime panic
"slice bounds out of range" raised when i exceeds the length. -/
def goSliceFrom (xs : List Char) (i : Nat) : Option (List Char) :=
  if i ≤ xs.length then some (xs.drop i) else none

/-- The begin marker searched by removeWaybackToolbar (37 characters). -/
def beginMarker : List Char := chrs "<!-- BEGIN WAYBACK TOOLBAR INSERT -->"

/-- The end marker searched by removeWaybackToolbar (35 characters). -/
def endMarker : List Char := chrs "<!-- END WAYBACK TOOLBAR INSERT -->"

/-- The toolbar-deletion step of removeWaybackToolbar (main.go lines
40-45): find the first occurrence of each marker and, when both exist,
splice html[:start] with html[end+36:].  The source hard-codes 36 as the
claimed length of the end comment.  none models the Go slice panic when
end+36 exceeds the length of the body. -/
def stripToolbarSpan (html : List Char) : Option (List Char) :=
  match firstIdx beginMarker html, firstIdx endMarker html with
  | some s, some e => (goSliceFrom html (e + 36)).map (fun tail => html.take s ++ tail)
  | some _, none => some html
  | none, _ => some html

/-- The tracking-script tag removed by removeWaybackToolbar. -/
def scriptTag : List Char :=
  chrs "<script src=\"//archive.org/includes/athena.js\" type=\"text/javascript\"></script>"

/-- Go strings.Replace s old new -1 for a non-empty old: replace every
non-overlapping occurrence, scanning left to right. -/
def replaceAllSub (pat rep : List Char) : List Char → List Char
  | [] => []
  | c :: rest =>
    if h : pat ≠ [] ∧ pat.isPrefixOf (c :: rest) then
      rep ++ replaceAllSub pat rep ((c :: rest).drop pat.length)
    else
      c :: replaceAllSub pat rep rest
termination_by xs => xs.length
decreasing_by
  · simp only [List.length_drop, List.length_cons]
    have hp : 1 ≤ pat.length := by
      cases hpat : pat with
      | nil => exact absurd hpat h.1
      | cons a as => simp
    omega
  · simp

/-- removeWaybackToolbar (main.go lines 38-52): marker splice followed by
removal of the tracking script tag. -/
def removeWaybackToolbar (html : List Char) : Option (List Char) :=
  (stripToolbarSpan html).map (replaceAllSub scriptTag [])

/-- A decoded CDX JSON value, the shape that main.go reads from the
snapshot index: Go interface values that are either strings, arrays, or
something else. -/
inductive CdxVal where
  | str (s : List Char)
  | arr (xs : List CdxVal)
  | other

/-- The pure tail of getWaybackURL (main.go lines 88-107), applied to the
decoded CDX response: require at least two rows, require the second row
to be an array of at least two entries whose second entry is a string,
and build the archive URL from that timestamp string. -/
def getWaybackURL (cdxResp : List CdxVal) (originalURL : List Char) :
    Except (List Char) (List Char) :=
  match cdxResp with
  | _ :: second :: _ =>
    match second with
    | .arr row =>
      match row with
      | _ :: (.str timestamp) :: _ =>
        .ok (chrs "http://web.archive.org/web/" ++ timestamp ++ chrs "/" ++ originalURL)
      | _ :: _ :: _ => .error (chrs "invalid timestamp in CDX response")
      | _ => .error (chrs "invalid CDX response format")
    | _ => .error (chrs "invalid CDX response format")
  | _ => .error (chrs "no archived version found for " ++ originalURL)

/-- The 14-digit condition named by the specification for the timestamp
field of a CDX data row. -/
def isFourteenDigits (s : List Char) : Bool :=
  s.length == 14 && s.all (fun c => c.isDigit)

/-- Body used to refute claim C3 as stated: one byte before the begin
marker, one byte inside the span, one byte after the end marker. -/
def c3FailingInput : List Char :=
  chrs "A" ++ beginMarker ++ chrs "X" ++ endMarker ++ chrs "B"

/-- Body used to refute claim C10 as stated: both markers adjacent, so
the body ends exactly with the end marker. -/
def c10FailingInput : List Char := beginMarker ++ endMarker

/-- Claim C3 (code_bug evidence): on a body holding both markers in
order with one trailing byte after the end marker, the toolbar splice
deletes that trailing byte as well, because the source splices at
end+36 while the end comment is 35 characters long.  The claim says
every byte outside the inclusive marker span is left unchanged, which
would give the result with the trailing byte kept. -/
theorem c3_off_by_one :
    stripToolbarSpan c3FailingInput = some (chrs "A")
      ∧ stripToolbarSpan c3FailingInput ≠ some (chrs "A" ++ chrs "B") := by
  constructor
  · decide
  · decide

/-- Claim C10 (code_bug evidence): on a body ending exactly with the end
marker, the splice evaluates html[end+36:] with end+36 one past the end
of the body, a Go slice-bounds panic (modelled as none), so the function
is not total as the claim states. -/
theorem c10_slice_out_of_range :
    stripToolbarSpan c10FailingInput = none := by decide

/-- Claim C6 corrected: whenever the resolver succeeds, the produced URL
is the fixed archive prefix, then the timestamp string taken verbatim
from the second entry of the second row, then a slash, then the
destination.  No 14-digit validation is performed on the way. -/
theorem c6_amended (resp : List CdxVal) (dst u : List Char)
    (h : getWaybackURL resp dst = .ok u) :
    ∃ ts, u = chrs "http://web.archive.org/web/" ++ ts ++ chrs "/" ++ dst
      ∧ ∃ r0 row rest c0 crest,
          resp = r0 :: .arr row :: rest ∧ row = c0 :: .str ts :: crest := by
  match resp, h with
  | r0 :: .arr (c0 :: .str ts :: crest) :: rest, h =>
    refine ⟨ts, ?_, r0, c0 :: .str ts :: crest, rest, c0, crest, rfl, rfl⟩
    simpa [getWaybackURL] using h.symm

/-- Witness for c6_amended at a concrete successful CDX response. -/
theorem c6_amended_witness :
    getWaybackURL [.arr [], .arr [.str (chrs "k"), .str (chrs "20020405123000")]]
        (chrs "http://example.com/")
      = .ok (chrs "http://web.archive.org/web/20020405123000/http://example.com/")
    ∧ ∃ ts, chrs "http://web.archive.org/web/20020405123000/http://example.com/"
        = chrs "http://web.archive.org/web/" ++ ts ++ chrs "/" ++ chrs "http://example.com/"
      ∧ ∃ r0 row rest c0 crest,
          ([.arr [], .arr [.str (chrs "k"), .str (chrs "20020405123000")]] : List CdxVal)
            = r0 :: .arr row :: rest ∧ row = c0 :: .str ts :: crest :=
  ⟨by rfl, c6_amended _ _ _ (by rfl)⟩

/-- Claim C6 counterexample: the resolver succeeds on a row whose
timestamp entry is not a 14-digit string, and returns it verbatim, so
the conjunct that the timestamp is always a 14-digit string fails. -/
theorem c6_counterexample :
    getWaybackURL [.arr [], .arr [.str (chrs "x"), .str (chrs "BADTS")]]
        (chrs "http://example.com/")
      = .ok (chrs "http://web.archive.org/web/BADTS/http://example.com/")
    ∧ isFourteenDigits (chrs "BADTS") = false := by
  constructor
  · rfl
  · decide

/-!
The retrying forwarder (main.go lines 429-492).  The geocities branch
(lines 243-320) runs the identical loop with different message text; the
archive-mode loop is the one embedded here.  One forwarding attempt is
described by the state of the fresh httptest recorder after the call to
proxy.ServeHTTP together with a flag telling whether the call panicked:
a panic that escapes before anything is written leaves the recorder at
its default code 200 with empty headers and body.
-/

/-- Outcome of one proxy.ServeHTTP call against a fresh recorder. -/
structure AttemptSpec where
  panics : Bool
  panicMsg : List Char
  code : Nat
  statusLine : List Char
  headers : List (List Char × List Char)
  body : List Char
deriving DecidableEq

/-- The error value carried in the Go variable lastErr. -/
inductive GoErr where
  | proxyPanic (msg : List Char)
  | statusErr (code : Nat)
deriving DecidableEq

/-- The string built by the fmt.Errorf calls for lastErr. -/
def GoErr.message : GoErr → List Char
  | .proxyPanic m => chrs "proxy panic: " ++ m
  | .statusErr c => chrs "proxy returned status " ++ (Nat.repr c).data

/-- Contents of the recorder for one attempt, as read back by
recorder.Result and the final copy loops. -/
structure RecResp where
  code : Nat
  statusLine : List Char
  headers : List (List Char × List Char)
  body : List Char
deriving DecidableEq

/-- The mutable state threaded through the retry loop: lastErr,
recorder, shouldRetry, the backoff delay, plus the observable trace
(sleep durations performed, attempts executed). -/
structure LoopState where
  lastErr : Option GoErr
  recorder : Option RecResp
  shouldRetry : Bool
  delay : Nat
  sleeps : List Nat
  attempts : Nat
deriving DecidableEq

/-- One response handed to the client, or the Go runtime fault raised by
calling Error on a nil error value. -/
inductive ForwardResult where
  | response (code : Nat) (headers : List (List Char × List Char)) (body : List Char)
  | fault
deriving DecidableEq

/-- Result of a whole forwarder invocation together with its observable
trace. -/
structure RunOutcome where
  result : ForwardResult
  attempts : Nat
  sleeps : List Nat
deriving DecidableEq

/-- The retry loop body (main.go lines 433-477), recursing on the number
of loop iterations left; i is the Go variable attempt.  Returns the
state after the loop together with the recorder copied on the early
success return, when one happened. -/
def loopRun (f : Nat → AttemptSpec) : Nat → Nat → LoopState → LoopState × Option RecResp
  | 0, _, st => (st, none)
  | remaining + 1, i, st =>
    let st1 := if 0 < i then
        { st with sleeps := st.sleeps ++ [st.delay], delay := 2 * st.delay }
      else st
    let a := f i
    let rcd : RecResp :=
      { code := a.code, statusLine := a.statusLine, headers := a.headers, body := a.body }
    let st2 := { st1 with
      recorder := some rcd
      lastErr := if a.panics then some (GoErr.proxyPanic a.panicMsg) else st1.lastErr
      attempts := st1.attempts + 1 }
    if 200 ≤ a.code ∧ a.code < 400 then (st2, some rcd)
    else
      let st3 := { st2 with lastErr := some (GoErr.statusErr a.code) }
      if a.code == 502 || containsL a.statusLine (chrs "connection refused") then
        loopRun f remaining (i + 1) { st3 with shouldRetry := true }
      else (st3, none)

/-- State at entry of the loop: nil lastErr, nil recorder, shouldRetry
false, the configured delay, nothing slept, nothing attempted. -/
def initState (d : Nat) : LoopState :=
  { lastErr := none, recorder := none, shouldRetry := false,
    delay := d, sleeps := [], attempts := 0 }

/-- The whole forwarder invocation (main.go lines 429-492): run the
loop, then dispatch on shouldRetry, the recorder and lastErr exactly as
the final result block does.  http.Error appends a newline to its
message.  The fault constructor models the nil dereference performed by
lastErr.Error() when lastErr is nil. -/
def handleForward (f : Nat → AttemptSpec) (maxRetries : Nat) (d : Nat) : RunOutcome :=
  let out := loopRun f maxRetries 0 (initState d)
  let st := out.1
  match out.2 with
  | some rcd =>
    { result := .response rcd.code rcd.headers rcd.body,
      attempts := st.attempts, sleeps := st.sleeps }
  | none =>
    let res :=
      if st.shouldRetry && st.lastErr.isSome then
        ForwardResult.response 502 []
          (chrs "Failed to connect to archived content after "
            ++ (Nat.repr maxRetries).data ++ chrs " attempts\n")
      else
        match st.recorder with
        | some rcd => ForwardResult.response rcd.code rcd.headers rcd.body
        | none =>
          match st.lastErr with
          | some e => ForwardResult.response 500 []
              (chrs "Error proxying request: " ++ e.message ++ chrs "\n")
          | none => ForwardResult.fault
    { result := res, attempts := st.attempts, sleeps := st.sleeps }

/-- A 502 attempt: the gateway-failure status that the loop retries. -/
def spec502 : AttemptSpec :=
  { panics := false, panicMsg := [], code := 502,
    statusLine := chrs "502 Bad Gateway", headers := [],
    body := chrs "bad gateway" }

/-- A 404 attempt carrying a real upstream error page. -/
def spec404 : AttemptSpec :=
  { panics := false, panicMsg := [], code := 404,
    statusLine := chrs "404 Not Found",
    headers := [(chrs "Content-Type", chrs "text/html")],
    body := chrs "real 404 page" }

/-- Attempts for the C1 counterexample: a retryable 502 first, then a
terminal 404. -/
def c1Attempts : Nat → AttemptSpec
  | 0 => spec502
  | _ + 1 => spec404

/-- Claim C1 counterexample: with the default three max attempts, a 502
on the first attempt followed by a terminal 404 ends the loop with the
last classification TERMINAL_FAILURE, yet the forwarder returns the
synthetic 502 message instead of the real 404 response, because the
shouldRetry flag set by the earlier attempt is never cleared. -/
theorem c1_counterexample :
    (handleForward c1Attempts 3 1).result
        = ForwardResult.response 502 []
            (chrs "Failed to connect to archived content after 3 attempts\n")
      ∧ (handleForward c1Attempts 3 1).result
          ≠ ForwardResult.response 404 spec404.headers spec404.body := by
  constructor
  · rfl
  · decide

/-- Claim C1 amended: the last real upstream response is returned
verbatim exactly when the terminal failure happens on the first attempt,
so that no earlier attempt was classified retryable; the loop only
reaches a later attempt through retryable classifications, and those set
the sticky shouldRetry flag that routes exhaustion to the synthetic
502. -/
theorem c1_amended (f : Nat → AttemptSpec) (nR d : Nat)
    (hN : 1 ≤ nR)
    (hsucc : ¬ (200 ≤ (f 0).code ∧ (f 0).code < 400))
    (hretry : ((f 0).code == 502
        || containsL (f 0).statusLine (chrs "connection refused")) = false) :
    handleForward f nR d =
      { result := ForwardResult.response (f 0).code (f 0).headers (f 0).body,
        attempts := 1, sleeps := [] } := by
  obtain ⟨m, rfl⟩ : ∃ m, nR = m + 1 := ⟨nR - 1, by omega⟩
  simp only [handleForward, loopRun, initState]
  simp only [if_neg hsucc, hretry, Nat.lt_irrefl, if_false, Bool.false_eq_true]
  rfl

/-- Witness for c1_amended: a terminal 404 on the very first of three
allowed attempts is forwarded verbatim with no sleeps. -/
theorem c1_amended_witness :
    handleForward (fun _ => spec404) 3 1 =
      { result := ForwardResult.response spec404.code spec404.headers spec404.body,
        attempts := 1, sleeps := [] } :=
  c1_amended (fun _ => spec404) 3 1 (by decide) (by decide) (by decide)

/-- An attempt whose proxy call panics before writing anything: the
fresh recorder keeps its default code 200 with empty headers and body. -/
def panicAttempt : AttemptSpec :=
  { panics := true, panicMsg := chrs "upstream transport fault",
    code := 200, statusLine := chrs "200 OK", headers := [], body := [] }

/-- Claim C2 (code_bug evidence): an attempt whose transport panics
before writing is caught, but the recorder left at its default code 200
makes the loop classify the attempt as a success, so the forwarder
performs no retry and hands the client an empty 200 response built from
the panicked attempt. -/
theorem c2_panic_returned_as_success :
    handleForward (fun _ => panicAttempt) 3 1 =
      { result := ForwardResult.response 200 [] [],
        attempts := 1, sleeps := [] } := by rfl

/-- Claim C5 (code_bug evidence): with the maximum configured to 0 the
loop body never runs, so the recorder stays nil, shouldRetry stays
false and lastErr stays nil; the final block then calls Error on the
nil lastErr, a nil dereference fault instead of the synthetic 500 the
claim describes. -/
theorem c5_zero_attempts_faults (f : Nat → AttemptSpec) (d : Nat) :
    handleForward f 0 d =
      { result := ForwardResult.fault, attempts := 0, sleeps := [] } := by rfl

/-- Backoff arithmetic: doubling the starting delay and shifting the
sleep sequence by one step. -/
theorem sleeps_shift (d r : Nat) :
    List.map (fun k => 2 ^ k * d) (List.range (r + 1 + 1)) =
      d :: List.map (fun k => 2 ^ k * (2 * d)) (List.range (r + 1)) := by
  rw [List.range_succ_eq_map, List.map_cons, List.map_map]
  refine congrArg₂ _ (by norm_num) ?_
  refine List.map_congr_left ?_
  intro k hk
  simp [Function.comp, pow_succ]
  ring

/-- When every remaining attempt answers 502, the loop runs all its
iterations, sleeping the current delay before each one and doubling it
after, ends with the sticky retry flag set, and keeps the recorder of
the final attempt. -/
theorem loopRun_all502 (f : Nat → AttemptSpec) :
    ∀ (r i : Nat) (st : LoopState), 1 ≤ i →
    (∀ j, j ≤ r → (f (i + j)).code = 502) →
    loopRun f (r + 1) i st =
      ({ lastErr := some (GoErr.statusErr 502),
         recorder := some { code := 502, statusLine := (f (i + r)).statusLine,
                            headers := (f (i + r)).headers, body := (f (i + r)).body },
         shouldRetry := true,
         delay := 2 ^ (r + 1) * st.delay,
         sleeps := st.sleeps ++ (List.range (r + 1)).map (fun k => 2 ^ k * st.delay),
         attempts := st.attempts + (r + 1) }, none) := by
  intro r
  induction r with
  | zero =>
    intro i st hi h
    have hip : 0 < i := hi
    have h0 : (f i).code = 502 := by simpa using h 0 (by omega)
    simp only [loopRun, hip, if_true, h0]
    norm_num
    rw [show List.range 1 = [0] from rfl]
    simp
  | succ r ih =>
    intro i st hi h
    have hip : 0 < i := hi
    have h0 : (f i).code = 502 := by simpa using h 0 (by omega)
    have step : loopRun f (r + 1 + 1) i st =
        loopRun f (r + 1) (i + 1)
          { lastErr := some (GoErr.statusErr 502),
            recorder := some { code := 502, statusLine := (f i).statusLine,
                               headers := (f i).headers, body := (f i).body },
            shouldRetry := true,
            delay := 2 * st.delay,
            sleeps := st.sleeps ++ [st.delay],
            attempts := st.attempts + 1 } := by
      simp only [loopRun, hip, if_true, h0]
      norm_num
    rw [step, ih (i + 1) _ (by omega) (fun j hj => by
      have hx := h (j + 1) (by omega)
      have harr : i + 1 + j = i + (j + 1) := by omega
      rw [harr]
      exact hx)]
    have hidx : i + 1 + r = i + (r + 1) := by omega
    simp only [Prod.mk.injEq, LoopState.mk.injEq, hidx]
    refine ⟨⟨trivial, trivial, trivial, ?_, ?_, by omega⟩, trivial⟩
    · ring
    · rw [List.append_assoc, sleeps_shift]
      rfl

/-- Claim C4 confirmed: with a configured maximum of nR at least 1 and
every attempt answering 502, the forwarder performs exactly nR attempts,
sleeps d, 2d, 4d and so on before each retry with no cap, and returns
the synthetic 502 whose message names nR attempts. -/
theorem c4_always502 (f : Nat → AttemptSpec) (nR d : Nat) (hN : 1 ≤ nR)
    (h502 : ∀ i, i < nR → (f i).code = 502) :
    handleForward f nR d =
      { result := ForwardResult.response 502 []
          (chrs "Failed to connect to archived content after "
            ++ (Nat.repr nR).data ++ chrs " attempts\n"),
        attempts := nR,
        sleeps := (List.range (nR - 1)).map (fun k => 2 ^ k * d) } := by
  obtain ⟨m, rfl⟩ : ∃ m, nR = m + 1 := ⟨nR - 1, by omega⟩
  have h0 : (f 0).code = 502 := h502 0 (by omega)
  cases m with
  | zero =>
    simp only [handleForward, loopRun, initState, h0]
    norm_num
  | succ s =>
    have hstep : loopRun f (s + 1 + 1) 0 (initState d) =
        loopRun f (s + 1) 1
          { lastErr := some (GoErr.statusErr 502),
            recorder := some { code := 502, statusLine := (f 0).statusLine,
                               headers := (f 0).headers, body := (f 0).body },
            shouldRetry := true, delay := d, sleeps := [], attempts := 1 } := by
      simp only [loopRun, initState, h0]
      norm_num
    have hloop := loopRun_all502 f s 1
      { lastErr := some (GoErr.statusErr 502),
        recorder := some { code := 502, statusLine := (f 0).statusLine,
                           headers := (f 0).headers, body := (f 0).body },
        shouldRetry := true, delay := d, sleeps := [], attempts := 1 }
      (by omega) (fun j hj => h502 (1 + j) (by omega))
    simp only [handleForward, hstep, hloop]
    simp only [RunOutcome.mk.injEq]
    norm_num
    omega

/-- Witness for c4_always502: two attempts of 502 with starting delay 5
give exactly two attempts, a single sleep of 5, and the synthetic 502
naming 2 attempts. -/
theorem c4_always502_witness :
    handleForward (fun _ => spec502) 2 5 =
      { result := ForwardResult.response 502 []
          (chrs "Failed to connect to archived content after 2 attempts\n"),
        attempts := 2, sleeps := [5] } :=
  (c4_always502 (fun _ => spec502) 2 5 (by decide) (fun i hi => rfl)).trans (by decide)

/-!
URL handling (extractRedirectURL, main.go lines 110-142, and the
archive-mode routing of handleRequest, lines 329-363).  The parts of the
Go standard library net/url that these lines rely on are modelled for
the well-formed http and https URLs the claims exercise: splitting off
the fragment and the query, recognising scheme://host/path, and reading
the first value of a query key.  Percent-decoding of query values is
omitted; the claims involve no percent-escapes.  A leading colon makes
net/url.Parse fail (missing protocol scheme); that is the parse-failure
branch modelled here.
-/

/-- Split a list at the first occurrence of sep: characters before it,
and the characters after it when it occurs. -/
def breakAt (sep : Char) : List Char → List Char × Option (List Char)
  | [] => ([], none)
  | c :: rest =>
    if c = sep then ([], some rest)
    else
      let p := breakAt sep rest
      (c :: p.1, p.2)

/-- The pieces of a parsed URL used by the source. -/
structure GoURL where
  scheme : List Char
  host : List Char
  path : List Char
  rawQuery : List Char
deriving DecidableEq

/-- Model of net/url.Parse for the URL shapes the claims exercise. -/
def parseURL (s : List Char) : Option GoURL :=
  match s with
  | ':' :: _ => none
  | _ =>
    let beforeFrag := (breakAt '#' s).1
    let q := breakAt '?' beforeFrag
    let rawQuery := q.2.getD []
    match firstIdx (chrs "://") q.1 with
    | some p =>
      let rest := q.1.drop (p + 3)
      let hp := breakAt '/' rest
      some { scheme := q.1.take p, host := hp.1,
             path := match hp.2 with
                     | some t => '/' :: t
                     | none => [],
             rawQuery := rawQuery }
    | none => some { scheme := [], host := [], path := q.1, rawQuery := rawQuery }

/-- Key-value pairs of a raw query, split on ampersands, each segment
split at its first equals sign; segments with an empty key are skipped,
as net/url.ParseQuery does. -/
def queryPairs (q : List Char) : List (List Char × List Char) :=
  (q.splitOn '&').filterMap (fun seg =>
    let p := breakAt '=' seg
    if p.1 = [] then none else some (p.1, p.2.getD []))

/-- url.Values.Get: the first value recorded for the key, or empty. -/
def queryGet (q key : List Char) : List Char :=
  match (queryPairs q).filter (fun p => p.1 == key) with
  | [] => []
  | p :: _ => p.2

/-- The ordered candidate parameter names of extractRedirectURL. -/
def redirectParams : List (List Char) :=
  [chrs "redirect", chrs "redir", chrs "next", chrs "url", chrs "u", chrs "dest",
   chrs "destination", chrs "forward", chrs "return", chrs "RelayState",
   chrs "goto", chrs "callback", chrs "continue", chrs "target"]

/-- The loop body of extractRedirectURL: scan the candidate names in
order; a non-empty value that starts with http:// or https:// is
returned as is, a non-empty value that starts with / is prefixed with
the scheme and host of the input; any other value lets the loop move
on. -/
def extractLoop (u : GoURL) : List (List Char) → Option (List Char)
  | [] => none
  | p :: rest =>
    let value := queryGet u.rawQuery p
    if value ≠ [] then
      if (chrs "http://").isPrefixOf value || (chrs "https://").isPrefixOf value then
        some value
      else if (chrs "/").isPrefixOf value then
        some (u.scheme ++ chrs "://" ++ u.host ++ value)
      else extractLoop u rest
    else extractLoop u rest

/-- extractRedirectURL (main.go lines 110-142): parse failure and a scan
with no hit both return the input unchanged. -/
def extractRedirectURL (redirectURL : List Char) : List Char :=
  match parseURL redirectURL with
  | none => redirectURL
  | some u => (extractLoop u redirectParams).getD redirectURL

/-- Result of testing one candidate value, written after the words of
the specification for the extractor: an absolute http or https URL is
returned as is, an absolute path is rewritten onto the input scheme and
host, anything else is no match. -/
def redirectValueResult (u : GoURL) (value : List Char) : Option (List Char) :=
  if (chrs "http://").isPrefixOf value || (chrs "https://").isPrefixOf value then
    some value
  else if (chrs "/").isPrefixOf value then
    some (u.scheme ++ chrs "://" ++ u.host ++ value)
  else none

/-- The extractor as the specification words it: take the first
candidate name, in list order, whose value matches; if none matches or
the input fails to parse, return the input unchanged. -/
def extractRedirectURLSpec (redirectURL : List Char) : List Char :=
  match parseURL redirectURL with
  | none => redirectURL
  | some u =>
    match redirectParams.findSome? (fun p => redirectValueResult u (queryGet u.rawQuery p)) with
    | some d => d
    | none => redirectURL

/-- An empty value never matches either prefix test. -/
theorem redirectValueResult_nil (u : GoURL) : redirectValueResult u [] = none := rfl

/-- The source loop computes the first-match scan of the specification
over any candidate list. -/
theorem extractLoop_findSome (u : GoURL) (ps : List (List Char)) :
    extractLoop u ps = ps.findSome? (fun p => redirectValueResult u (queryGet u.rawQuery p)) := by
  induction ps with
  | nil => rfl
  | cons p rest ih =>
    simp only [extractLoop, List.findSome?]
    by_cases hv : queryGet u.rawQuery p = []
    · simp [hv, redirectValueResult_nil, ih]
    · simp only [hv, if_true, ne_eq, not_false_eq_true, if_pos]
      unfold redirectValueResult
      by_cases habs : ((chrs "http://").isPrefixOf (queryGet u.rawQuery p)
          || (chrs "https://").isPrefixOf (queryGet u.rawQuery p)) = true
      · simp [habs]
      · simp only [Bool.not_eq_true] at habs
        by_cases hsl : (chrs "/").isPrefixOf (queryGet u.rawQuery p) = true
        · simp [habs, hsl]
        · simp only [Bool.not_eq_true] at hsl
          simp only [habs, hsl, Bool.false_eq_true, if_false, ih]
          refine congrArg (fun g => List.findSome? g rest) ?_
          funext q
          simp [redirectValueResult]

/-- Claim C8 confirmed: the extractor equals its specification-side
description on every input: the first candidate in the fixed order whose
value is an absolute http or https URL (returned as is) or an absolute
path (input scheme and host prepended); otherwise, and on parse failure,
the input is returned unchanged and no error is signaled. -/
theorem c8_extract_first_match (s : List Char) :
    extractRedirectURL s = extractRedirectURLSpec s := by
  unfold extractRedirectURL extractRedirectURLSpec
  cases hp : parseURL s with
  | none => rfl
  | some u =>
    simp only [extractLoop_findSome]
    cases hf : redirectParams.findSome? (fun p => redirectValueResult u (queryGet u.rawQuery p)) with
    | none => rfl
    | some d => rfl

/-- The archive URL prefix tested by the router. -/
def archivePref : List Char := chrs "http://web.archive.org/web/"

/-- Go strings.Join with separator "/". -/
def joinSlash : List (List Char) → List Char
  | [] => []
  | [x] => x
  | x :: y :: rest => x ++ '/' :: joinSlash (y :: rest)

/-- The archive-mode re-entrancy decision of handleRequest (main.go
lines 341-363) for a request URL that already carries the archive
prefix: split on slashes, rejoin everything from segment 6 on, prepend
http://, run the redirect extractor on it, and resolve again exactly
when the extractor returned something different.  some d means the
snapshot resolver is invoked for destination d; none means the existing
archive URL is reused unchanged. -/
def archiveResolveTarget (originalURL : List Char) : Option (List Char) :=
  if archivePref.isPrefixOf originalURL then
    let parts := originalURL.splitOn '/'
    if 7 ≤ parts.length then
      let naive := chrs "http://" ++ joinSlash (parts.drop 6)
      let dest := extractRedirectURL naive
      if dest ≠ naive then some dest else none
    else none
  else none

/-- A value beginning with http:// or https:// is non-empty. -/
theorem absValue_ne_nil (v : List Char)
    (habs : ((chrs "http://").isPrefixOf v || (chrs "https://").isPrefixOf v) = true) :
    v ≠ [] := by
  intro he
  rw [he] at habs
  exact absurd habs (by decide)

/-- Claim C7 confirmed: when an inbound URL already in archive form
wraps a destination whose query carries a redirect parameter holding an
absolute http or https URL different from the naive reconstruction, the
router hands exactly that redirect target to the snapshot resolver, not
the literal wrapped destination. -/
theorem c7_reentrancy (U V : List Char) (u : GoURL)
    (hpre : archivePref.isPrefixOf U = true)
    (hlen : 7 ≤ (U.splitOn '/').length)
    (hparse : parseURL (chrs "http://" ++ joinSlash ((U.splitOn '/').drop 6)) = some u)
    (hget : queryGet u.rawQuery (chrs "redirect") = V)
    (habs : ((chrs "http://").isPrefixOf V || (chrs "https://").isPrefixOf V) = true)
    (hne : V ≠ chrs "http://" ++ joinSlash ((U.splitOn '/').drop 6)) :
    archiveResolveTarget U = some V := by
  have hVne : V ≠ [] := absValue_ne_nil V habs
  have hext : extractRedirectURL (chrs "http://" ++ joinSlash ((U.splitOn '/').drop 6)) = V := by
    unfold extractRedirectURL
    rw [hparse]
    have hloop : extractLoop u redirectParams = some V := by
      unfold redirectParams
      simp only [extractLoop, hget]
      rw [if_pos hVne, if_pos habs]
    show (extractLoop u redirectParams).getD
        (chrs "http://" ++ joinSlash ((U.splitOn '/').drop 6)) = V
    rw [hloop]
    rfl
  unfold archiveResolveTarget
  rw [if_pos hpre, if_pos hlen]
  simp only [hext]
  rw [if_pos hne]

/-- The inbound archive-form URL of the re-entrancy scenario. -/
def c7URL : List Char :=
  chrs "http://web.archive.org/web/20020401000000/http://example.com/bounce?redirect=https://other.example/page"

/-- The redirect target embedded in the wrapped destination. -/
def c7Dest : List Char := chrs "https://other.example/page"

/-- The parse of the naive reconstruction http:///example.com/bounce
with the redirect query: empty host because the rejoin keeps the slash
that followed the wrapped scheme. -/
def c7Parsed : GoURL :=
  { scheme := chrs "http", host := [], path := chrs "/example.com/bounce",
    rawQuery := chrs "redirect=https://other.example/page" }

/-- Witness for c7_reentrancy on the concrete scenario of the claim. -/
theorem c7_reentrancy_witness :
    archiveResolveTarget c7URL = some c7Dest :=
  c7_reentrancy c7URL c7Dest c7Parsed (by decide) (by decide) (by decide) (by decide)
    (by decide) (by decide)

/-!
The geocities branch (main.go lines 144-240): direct proxying to the
fixed origin and the screenshot-strip rewrite.  The rewrite is the Go
regexp ReplaceAllString with the RE2 pattern for a div opening tag with
one or more whitespace characters, the literal class attribute, a
non-greedy run of non-newline characters, and the closing div tag,
leftmost matches replaced non-overlapping.
-/

/-- Prefix test recursing on the pattern first, so that an exhausted
pattern reduces to true without inspecting the text. -/
def pfx : List Char → List Char → Bool
  | [], _ => true
  | p :: ps, cs =>
    match cs with
    | [] => false
    | c :: cs2 => p == c && pfx ps cs2

/-- The prefix test agrees with the standard one. -/
theorem pfx_eq (p : List Char) : ∀ l, pfx p l = p.isPrefixOf l := by
  induction p with
  | nil => intro l; simp [pfx]
  | cons a ps ih =>
    intro l
    cases l with
    | nil => rfl
    | cons c cs => simp [pfx, List.isPrefixOf_cons₂, ih]

/-- RE2 whitespace class: tab, newline, form feed, carriage return,
space. -/
def isRE2Space (c : Char) : Bool :=
  c = ' ' || c = '\t' || c = '\n' || c = '\x0c' || c = '\r'

/-- The closing tag literal of the pattern. -/
def closeDiv : List Char := chrs "</div>"

/-- The non-greedy tail of the pattern: the earliest occurrence of the
closing tag reachable without crossing a newline; returns what follows
the match, none when the pattern cannot match here. -/
def findCloseDiv : List Char → Option (List Char)
  | [] => none
  | c :: rest =>
    if pfx closeDiv (c :: rest) then some ((c :: rest).drop 6)
    else if c = '\n' then none
    else findCloseDiv rest

/-- Match of the whole pattern at the head of the text: the literal div
opening, at least one whitespace character, the literal class attribute,
then the non-greedy tail.  Returns the remainder after the match. -/
def matchCardImageAt (xs : List Char) : Option (List Char) :=
  if pfx (chrs "<div") xs then
    let rest1 := xs.drop 4
    let ws := rest1.takeWhile isRE2Space
    if ws = [] then none
    else
      let rest2 := rest1.dropWhile isRE2Space
      if pfx (chrs "class=\"card-image\">") rest2 then
        findCloseDiv (rest2.drop 19)
      else none
  else none

/-- The replacement text written for every match. -/
def screenshotComment : List Char := chrs "<!-- Screenshot removed for performance -->"

/-- A successful non-greedy tail consumes at least the closing tag. -/
theorem findCloseDiv_length {xs r : List Char} (h : findCloseDiv xs = some r) :
    r.length < xs.length := by
  induction xs with
  | nil => exact absurd h (by simp [findCloseDiv])
  | cons c rest ih =>
    unfold findCloseDiv at h
    by_cases hp : pfx closeDiv (c :: rest) = true
    · rw [if_pos hp] at h
      rw [pfx_eq] at hp
      have hlen : closeDiv.length ≤ (c :: rest).length :=
        (List.isPrefixOf_iff_prefix.mp hp).length_le
      have h6 : (6 : Nat) ≤ rest.length + 1 := by simpa [closeDiv, chrs] using hlen
      have hr : r = (c :: rest).drop 6 := by
        injection h with h2
        exact h2.symm
      subst hr
      simp only [List.length_drop, List.length_cons]
      omega
    · rw [if_neg (by simpa using hp)] at h
      by_cases hn : c = '\n'
      · rw [if_pos hn] at h
        exact absurd h (by simp)
      · rw [if_neg hn] at h
        have := ih h
        simp only [List.length_cons]
        omega

/-- A successful match consumes at least one character. -/
theorem matchCardImageAt_length {xs r : List Char} (h : matchCardImageAt xs = some r) :
    r.length < xs.length := by
  unfold matchCardImageAt at h
  by_cases hp : pfx (chrs "<div") xs = true
  · rw [if_pos hp] at h
    by_cases hw : (xs.drop 4).takeWhile isRE2Space = []
    · rw [if_pos hw] at h
      exact absurd h (by simp)
    · rw [if_neg hw] at h
      by_cases hc : pfx (chrs "class=\"card-image\">")
          ((xs.drop 4).dropWhile isRE2Space) = true
      · rw [if_pos hc] at h
        have h1 := findCloseDiv_length h
        have h2 : (((xs.drop 4).dropWhile isRE2Space).drop 19).length
            ≤ ((xs.drop 4).dropWhile isRE2Space).length := by
          simp only [List.length_drop]
          omega
        have h3 : ((xs.drop 4).dropWhile isRE2Space).length ≤ (xs.drop 4).length :=
          (List.dropWhile_sublist _).length_le
        have h5 : (4 : Nat) ≤ xs.length := by
          rw [pfx_eq] at hp
          simpa [chrs] using (List.isPrefixOf_iff_prefix.mp hp).length_le
        have h6 : (xs.drop 4).length = xs.length - 4 := by simp
        omega
      · rw [if_neg (by simpa using hc)] at h
        exact absurd h (by simp)
  · rw [if_neg (by simpa using hp)] at h
    exact absurd h (by simp)

/-- Fuel-bounded scan for the regexp replacement; the fuel only has to
dominate the length of the text. -/
def replaceAux : Nat → List Char → List Char
  | _, [] => []
  | 0, c :: rest => c :: rest
  | fuel + 1, c :: rest =>
    match matchCardImageAt (c :: rest) with
    | some r => screenshotComment ++ replaceAux fuel r
    | none => c :: replaceAux fuel rest

/-- The fuel does not matter once it dominates the length. -/
theorem replaceAux_congr : ∀ (f1 f2 : Nat) (xs : List Char),
    xs.length ≤ f1 → xs.length ≤ f2 → replaceAux f1 xs = replaceAux f2 xs := by
  intro f1
  induction f1 with
  | zero =>
    intro f2 xs h1 h2
    have : xs = [] := by
      cases xs with
      | nil => rfl
      | cons c rest => simp at h1
    subst this
    cases f2 with
    | zero => rfl
    | succ g => rfl
  | succ g1 ih =>
    intro f2 xs h1 h2
    cases xs with
    | nil =>
      cases f2 with
      | zero => rfl
      | succ g2 => rfl
    | cons c rest =>
      cases f2 with
      | zero => simp at h2
      | succ g2 =>
        show (match matchCardImageAt (c :: rest) with
          | some r => screenshotComment ++ replaceAux g1 r
          | none => c :: replaceAux g1 rest) =
          (match matchCardImageAt (c :: rest) with
          | some r => screenshotComment ++ replaceAux g2 r
          | none => c :: replaceAux g2 rest)
        cases hm : matchCardImageAt (c :: rest) with
        | some r =>
          have hr : r.length < rest.length + 1 := by
            simpa using matchCardImageAt_length hm
          simp only []
          rw [ih g2 r (by simp at h1; omega) (by simp at h2; omega)]
        | none =>
          simp only []
          rw [ih g2 rest (by simp at h1; omega) (by simp at h2; omega)]

/-- regexp.ReplaceAllString over the text: scan left to right, replace
each leftmost non-overlapping match of the pattern with the comment. -/
def replaceCardImage (xs : List Char) : List Char := replaceAux xs.length xs

/-- Unfolding: the empty text is unchanged. -/
theorem replaceCardImage_nil : replaceCardImage [] = [] := rfl

/-- Unfolding: a match at the head is replaced and the scan continues
after it. -/
theorem replaceCardImage_cons_match {c : Char} {t r : List Char}
    (h : matchCardImageAt (c :: t) = some r) :
    replaceCardImage (c :: t) = screenshotComment ++ replaceCardImage r := by
  show replaceAux (c :: t).length (c :: t) = screenshotComment ++ replaceAux r.length r
  have hr : r.length < (c :: t).length := matchCardImageAt_length h
  simp only [List.length_cons, replaceAux, h]
  exact congrArg _ (replaceAux_congr t.length r.length r (by simp at hr; omega) (le_refl _))

/-- Unfolding: with no match at the head the first character is kept. -/
theorem replaceCardImage_cons_nomatch {c : Char} {t : List Char}
    (h : matchCardImageAt (c :: t) = none) :
    replaceCardImage (c :: t) = c :: replaceCardImage t := by
  show replaceAux (c :: t).length (c :: t) = c :: replaceAux t.length t
  simp only [List.length_cons, replaceAux, h]

/-- The pattern matches at the head of a block opening written with one
space, and its non-greedy tail takes over right after the class
attribute. -/
theorem matchCardImageAt_block (z : List Char) :
    matchCardImageAt (chrs "<div class=\"card-image\">" ++ z) = findCloseDiv z := rfl

/-- Splitting a prefix relation across an append when the pattern is
longer than the left part. -/
theorem pfx_append_split {P xs tail : List Char}
    (h : pfx P (xs ++ tail) = true) (hlen : xs.length < P.length) :
    pfx (P.drop xs.length) tail = true := by
  rw [pfx_eq] at h ⊢
  obtain ⟨t, ht⟩ := List.isPrefixOf_iff_prefix.mp h
  refine List.isPrefixOf_iff_prefix.mpr ⟨t, ?_⟩
  have hdropP : (P ++ t).drop xs.length = P.drop xs.length ++ t :=
    List.drop_append_of_le_length (by omega)
  have hdropX : (xs ++ tail).drop xs.length = tail := List.drop_left xs tail
  rw [← hdropP, ht, hdropX]

/-- A failing head test on the bare left part extends across an append
whenever no character of the pattern past position zero can equal the
head of the right part. -/
theorem pfx_append_false (P xs tail : List Char)
    (h0 : pfx P xs = false)
    (hcross : ∀ L, 0 < L → L < P.length → P[L]? ≠ tail.head?)
    (hxs : xs ≠ []) :
    pfx P (xs ++ tail) = false := by
  by_contra hc
  simp only [Bool.not_eq_false] at hc
  by_cases hlen : P.length ≤ xs.length
  · have hpre : P <+: xs ++ tail := by
      rw [pfx_eq] at hc
      exact List.isPrefixOf_iff_prefix.mp hc
    have hx : P <+: xs :=
      List.prefix_of_prefix_length_le hpre (List.prefix_append xs tail) hlen
    rw [pfx_eq, List.isPrefixOf_iff_prefix.mpr hx] at h0
    exact absurd h0 (by simp)
  · push_neg at hlen
    have hsplit := pfx_append_split hc hlen
    have hdne : P.drop xs.length ≠ [] := by
      intro he
      have : P.length - xs.length = 0 := by
        simpa using congrArg List.length he
      omega
    have hhead : (P.drop xs.length).head? = tail.head? := by
      rw [pfx_eq] at hsplit
      obtain ⟨t, ht⟩ := List.isPrefixOf_iff_prefix.mp hsplit
      rw [← ht]
      cases hd : P.drop xs.length with
      | nil => exact absurd hd hdne
      | cons a u => simp
    rw [List.head?_drop] at hhead
    have hpos : 0 < xs.length := by
      cases xs with
      | nil => exact absurd rfl hxs
      | cons a u => simp
    exact absurd hhead (hcross xs.length hpos hlen)

/-- Characters: a text that avoids a pattern also avoids it when one
character shorter, and does not start with it. -/
theorem containsL_cons_false {c : Char} {t pat : List Char}
    (h : containsL (c :: t) pat = false) :
    pat.isPrefixOf (c :: t) = false ∧ containsL t pat = false := by
  unfold containsL firstIdx at h
  by_cases hp : pat.isPrefixOf (c :: t) = true
  · rw [if_pos hp] at h
    exact absurd h (by simp)
  · simp only [Bool.not_eq_true] at hp
    rw [if_neg (by simp [hp])] at h
    refine ⟨hp, ?_⟩
    simpa [containsL] using h

/-- The non-greedy tail stops at the closing tag that follows the inner
text, provided the inner text holds no newline and no closing tag of its
own. -/
theorem findCloseDiv_block (inner post : List Char)
    (hnl : ∀ c, c ∈ inner → c ≠ '\n')
    (hocc : containsL inner closeDiv = false) :
    findCloseDiv (inner ++ (closeDiv ++ post)) = some post := by
  induction inner with
  | nil => rfl
  | cons c rest ih =>
    have hparts := containsL_cons_false hocc
    have hpf : pfx closeDiv ((c :: rest) ++ (closeDiv ++ post)) = false := by
      refine pfx_append_false _ _ _ (by rw [pfx_eq]; exact hparts.1) ?_ (by simp)
      intro L hL0 hLlen
      rw [show (closeDiv ++ post).head? = some '<' from rfl]
      have hL6 : L < 6 := by simpa [closeDiv, chrs] using hLlen
      interval_cases L
      · decide
      · decide
      · decide
      · decide
      · decide
    rw [List.cons_append] at hpf
    show findCloseDiv (c :: (rest ++ (closeDiv ++ post))) = some post
    unfold findCloseDiv
    rw [if_neg (by simp [hpf]), if_neg (hnl c (by simp))]
    exact ih (fun x hx => hnl x (by simp [hx])) hparts.2

/-- The scan walks over a stretch free of div openings unchanged,
provided the right part starts with an angle bracket. -/
theorem replaceCardImage_skip (pre B : List Char)
    (hpre : containsL pre (chrs "<div") = false)
    (hBhead : B.head? = some '<') :
    replaceCardImage (pre ++ B) = pre ++ replaceCardImage B := by
  induction pre with
  | nil => simp
  | cons c t ih =>
    have hparts := containsL_cons_false hpre
    have hpf : pfx (chrs "<div") ((c :: t) ++ B) = false := by
      refine pfx_append_false _ _ _ (by rw [pfx_eq]; exact hparts.1) ?_ (by simp)
      intro L hL0 hLlen
      rw [hBhead]
      have hL4 : L < 4 := by simpa [chrs] using hLlen
      interval_cases L
      · decide
      · decide
      · decide
    rw [List.cons_append] at hpf
    have hmatch : matchCardImageAt (c :: (t ++ B)) = none := by
      unfold matchCardImageAt
      rw [if_neg (by simp [hpf])]
    rw [List.cons_append, replaceCardImage_cons_nomatch hmatch, ih hparts.2]
    rfl

/-- One card-image block between clean surroundings is rewritten to the
comment, everything before it kept, and the scan continues after the
closing tag. -/
theorem replaceCardImage_block (pre inner post : List Char)
    (hpre : containsL pre (chrs "<div") = false)
    (hnl : ∀ c, c ∈ inner → c ≠ '\n')
    (hocc : containsL inner closeDiv = false) :
    replaceCardImage
        (pre ++ (chrs "<div class=\"card-image\">" ++ (inner ++ (closeDiv ++ post))))
      = pre ++ (screenshotComment ++ replaceCardImage post) := by
  rw [replaceCardImage_skip pre
    (chrs "<div class=\"card-image\">" ++ (inner ++ (closeDiv ++ post))) hpre rfl]
  have hm : matchCardImageAt
      ('<' :: (chrs "div class=\"card-image\">" ++ (inner ++ (closeDiv ++ post))))
      = some post := by
    have hb := matchCardImageAt_block (inner ++ (closeDiv ++ post))
    rw [show (chrs "<div class=\"card-image\">"
        ++ (inner ++ (closeDiv ++ post)) : List Char)
      = '<' :: (chrs "div class=\"card-image\">" ++ (inner ++ (closeDiv ++ post)))
        from rfl] at hb
    rw [hb]
    exact findCloseDiv_block inner post hnl hocc
  rw [show (chrs "<div class=\"card-image\">"
      ++ (inner ++ (closeDiv ++ post)) : List Char)
    = '<' :: (chrs "div class=\"card-image\">" ++ (inner ++ (closeDiv ++ post)))
      from rfl]
  rw [replaceCardImage_cons_match hm]

/-- The fixed archived-content origin. -/
def geoOrigin : List Char := chrs "geocities.restorativland.org"

/-- The branch test of handleRequest (main.go line 146). -/
def isGeocitiesRequest (host : List Char) : Bool :=
  containsL host geoOrigin || host == geoOrigin

/-- The upstream target built by the geocities director (main.go lines
151-175): scheme forced to https, host the fixed origin, inbound path
kept with the empty path normalized to a slash, query kept verbatim. -/
def geocitiesRoute (host path rawQuery : List Char) : Option GoURL :=
  if isGeocitiesRequest host then
    some { scheme := chrs "https", host := geoOrigin,
           path := if path = [] then chrs "/" else path,
           rawQuery := rawQuery }
  else none

/-- The parts of an upstream response touched by ModifyResponse. -/
structure HResp where
  code : Nat
  contentType : List Char
  body : List Char
  contentLength : Nat
deriving DecidableEq

/-- ModifyResponse of the geocities proxy (main.go lines 216-237): on
HTML content, replace every card-image block by the comment and set the
content length to the new byte length; other content passes through. -/
def geocitiesModify (resp : HResp) : HResp :=
  if containsL resp.contentType (chrs "text/html") then
    { code := resp.code, contentType := resp.contentType,
      body := replaceCardImage resp.body,
      contentLength := (replaceCardImage resp.body).length }
  else resp

/-- Claim C9 confirmed: a request whose host carries the fixed origin is
directed to https on that origin with path and query copied (empty path
becoming a slash); every HTML response body goes through the card-image
replacement with the content length recomputed to the new byte length;
and a card-image block matched by the pattern is replaced by the literal
performance comment with its surroundings kept. -/
theorem c9_geocities (host path q pre inner post : List Char) (resp : HResp)
    (hhost : isGeocitiesRequest host = true)
    (hhtml : containsL resp.contentType (chrs "text/html") = true)
    (hpre : containsL pre (chrs "<div") = false)
    (hnl : ∀ c, c ∈ inner → c ≠ '\n')
    (hocc : containsL inner closeDiv = false) :
    geocitiesRoute host path q =
      some { scheme := chrs "https", host := geoOrigin,
             path := if path = [] then chrs "/" else path, rawQuery := q }
    ∧ (geocitiesModify resp).body = replaceCardImage resp.body
    ∧ (geocitiesModify resp).contentLength = (geocitiesModify resp).body.length
    ∧ replaceCardImage
        (pre ++ (chrs "<div class=\"card-image\">" ++ (inner ++ (closeDiv ++ post))))
      = pre ++ (screenshotComment ++ replaceCardImage post) := by
  refine ⟨?_, ?_, ?_, replaceCardImage_block pre inner post hpre hnl hocc⟩
  · unfold geocitiesRoute
    rw [if_pos hhost]
  · unfold geocitiesModify
    rw [if_pos hhtml]
  · unfold geocitiesModify
    rw [if_pos hhtml]

/-- Witness for c9_geocities on the end-to-end scenario of the claim:
the neighborhood page request and an HTML body holding one card-image
block. -/
theorem c9_geocities_witness :
    geocitiesRoute (chrs "geocities.restorativland.org")
        (chrs "/neighborhood/page.html") [] =
      some { scheme := chrs "https", host := geoOrigin,
             path := if (chrs "/neighborhood/page.html") = [] then chrs "/"
                     else chrs "/neighborhood/page.html",
             rawQuery := [] }
    ∧ (geocitiesModify
        { code := 200, contentType := chrs "text/html",
          body := chrs "<p>a</p><div class=\"card-image\"><img src=\"s.png\"></div><p>b</p>",
          contentLength := 0 }).body
      = replaceCardImage
          (chrs "<p>a</p><div class=\"card-image\"><img src=\"s.png\"></div><p>b</p>")
    ∧ (geocitiesModify
        { code := 200, contentType := chrs "text/html",
          body := chrs "<p>a</p><div class=\"card-image\"><img src=\"s.png\"></div><p>b</p>",
          contentLength := 0 }).contentLength
      = (geocitiesModify
          { code := 200, contentType := chrs "text/html",
            body := chrs "<p>a</p><div class=\"card-image\"><img src=\"s.png\"></div><p>b</p>",
            contentLength := 0 }).body.length
    ∧ replaceCardImage
        (chrs "<p>a</p>"
          ++ (chrs "<div class=\"card-image\">"
            ++ (chrs "<img src=\"s.png\">" ++ (closeDiv ++ chrs "<p>b</p>"))))
      = chrs "<p>a</p>"
        ++ (screenshotComment ++ replaceCardImage (chrs "<p>b</p>")) :=
  c9_geocities (chrs "geocities.restorativland.org") (chrs "/neighborhood/page.html") []
    (chrs "<p>a</p>") (chrs "<img src=\"s.png\">") (chrs "<p>b</p>")
    { code := 200, contentType := chrs "text/html",
      body := chrs "<p>a</p><div class=\"card-image\"><img src=\"s.png\"></div><p>b</p>",
      contentLength := 0 }
    (by decide) (by decide) (by decide) (by decide) (by decide)
